import Mathlib

/-!
Shallow embedding of the Magic Formula backtest
(`MagicFormulaBacktest._process_empresas_data` and
`MagicFormulaBacktest._process_ibov_data` in `src/main.py`).

Prices, volumes, factor values and returns are rationals; period keys
(the `data` column) are naturals; nullable columns are `Option ℚ`.
A pandas frame is a list of rows in frame order; NaN is `none`.
-/

/-- One row of the company panel `dados_empresas`: columns `ticker`, `data`,
`preco_fechamento_ajustado`, `volume_negociado`, `ebit_ev`, `roic`. -/
structure StockObservation where
  ticker : String
  data : Nat
  preco_fechamento_ajustado : ℚ
  volume_negociado : ℚ
  ebit_ev : Option ℚ
  roic : Option ℚ
deriving DecidableEq

/-- First later same-ticker row, in frame (arrival) order. -/
def nextSameTicker (t : String) (rest : List StockObservation) : Option StockObservation :=
  rest.find? (fun s => s.ticker == t)

/-- Lines 42-43 of `main.py`: `groupby("ticker")["preco_fechamento_ajustado"].pct_change()`
followed by `groupby("ticker")["retorno_mensal"].shift(-1)`.  Both operate in frame
order within each ticker group, so each row gets the percentage price change to the
next same-ticker row in arrival order (missing when there is none). -/
def attachForward : List StockObservation → List (StockObservation × Option ℚ)
  | [] => []
  | r :: rest =>
    (r, (nextSameTicker r.ticker rest).map
          (fun s => s.preco_fechamento_ajustado / r.preco_fechamento_ajustado - 1))
      :: attachForward rest

/-- Accumulator step keeping the date-minimal observation seen so far (the first
one wins on equal dates). -/
def minByData (acc : Option StockObservation) (s : StockObservation) : Option StockObservation :=
  match acc with
  | none => some s
  | some b => if s.data < b.data then some s else acc

/-- Date-minimal later-dated same-ticker observation.  Modelled from the spec: the
successor of a row once its ticker group is sorted by date. -/
def specNext (panel : List StockObservation) (r : StockObservation) : Option StockObservation :=
  (panel.filter (fun s => s.ticker == r.ticker && decide (r.data < s.data))).foldl
    minByData none

/-- Modelled from the spec: `compute_forward_returns` groups by ticker, sorts each
group by date, takes the period-over-period percentage price change and shifts it one
period earlier, i.e. each row is paired with the price change to the same ticker's
next-dated observation. -/
def specForwardReturns (panel : List StockObservation) : List (StockObservation × Option ℚ) :=
  panel.map (fun r =>
    (r, (specNext panel r).map
          (fun s => s.preco_fechamento_ajustado / r.preco_fechamento_ajustado - 1)))

/-- Pandas fractional (average, the default `method`) rank of value `v` among the
non-missing values `vals` of its group: the count of strictly better values plus the
average of the positions occupied by the ties of `v`.  `asc = false` is
`rank(ascending=False)`: a larger value is better. -/
def fracRank (asc : Bool) (vals : List ℚ) (v : ℚ) : ℚ :=
  ((vals.filter (fun w => if asc then decide (w < v) else decide (v < w))).length : ℚ)
    + (((vals.filter (fun w => decide (w = v))).length : ℚ) + 1) / 2

/-- Liquidity threshold of line 45: `volume_negociado > 1_000_000`. -/
def LIQUIDITY_THRESHOLD : ℚ := 1000000

/-- Portfolio size of line 53: `ranking_final <= 10`. -/
def PORTFOLIO_SIZE : ℚ := 10

/-- Line 47: `groupby("data")["ebit_ev"].rank(ascending=False)` for one row, given
the rows `obss` of the (already liquidity-filtered) frame.  Missing factor values
keep a missing rank (`na_option` default) and do not enter the group's values. -/
def rank_ebit_of (obss : List StockObservation) (r : StockObservation) : Option ℚ :=
  r.ebit_ev.map
    (fracRank false ((obss.filter (fun q => q.data == r.data)).filterMap (fun q => q.ebit_ev)))

/-- Line 48: `groupby("data")["roic"].rank(ascending=False)` for one row. -/
def rank_roic_of (obss : List StockObservation) (r : StockObservation) : Option ℚ :=
  r.roic.map
    (fracRank false ((obss.filter (fun q => q.data == r.data)).filterMap (fun q => q.roic)))

/-- NaN-propagating addition of two nullable columns. -/
def optAdd : Option ℚ → Option ℚ → Option ℚ
  | some a, some b => some (a + b)
  | _, _ => none

/-- Line 50: `ranking_final = ranking_ebit_ev + ranking_roic` for one row. -/
def sum_rank_of (obss : List StockObservation) (r : StockObservation) : Option ℚ :=
  optAdd (rank_ebit_of obss r) (rank_roic_of obss r)

/-- Line 51: `groupby("data")["ranking_final"].rank()` (ascending, average ties) of
the rank sum within the row's period; missing sums keep a missing final rank and are
left out of the group's values. -/
def ranking_final_of (obss : List StockObservation) (r : StockObservation) : Option ℚ :=
  (sum_rank_of obss r).map
    (fracRank true ((obss.filter (fun q => q.data == r.data)).filterMap (sum_rank_of obss)))

/-- Line 45: keep the rows with `volume_negociado > 1_000_000`; the forward returns
of lines 42-43 were already attached on the unfiltered frame. -/
def liquidPairs (panel : List StockObservation) : List (StockObservation × Option ℚ) :=
  (attachForward panel).filter (fun p => decide (LIQUIDITY_THRESHOLD < p.1.volume_negociado))

/-- One row of `dados_empresas` after lines 42-51. -/
structure FinalRow where
  obs : StockObservation
  retorno_mensal : Option ℚ
  ranking_ebit_ev : Option ℚ
  ranking_roic : Option ℚ
  ranking_final : Option ℚ
deriving DecidableEq

/-- The frame after lines 42-51 (returns, liquidity filter, both factor ranks and
the final rank), before the selection of line 53. -/
def rankedPanel (panel : List StockObservation) : List FinalRow :=
  (liquidPairs panel).map (fun p =>
    { obs := p.1
      retorno_mensal := p.2
      ranking_ebit_ev := rank_ebit_of ((liquidPairs panel).map Prod.fst) p.1
      ranking_roic := rank_roic_of ((liquidPairs panel).map Prod.fst) p.1
      ranking_final := ranking_final_of ((liquidPairs panel).map Prod.fst) p.1 })

/-- Line 53: `dados_empresas[dados_empresas["ranking_final"] <= 10]`; a missing
final rank compares as false and is dropped. -/
def selectedPanel (panel : List StockObservation) : List FinalRow :=
  (rankedPanel panel).filter (fun r =>
    match r.ranking_final with
    | some q => decide (q ≤ PORTFOLIO_SIZE)
    | none => false)

/-- View of the rank columns of the liquidity-surviving rows. -/
def ranksView (panel : List StockObservation) :
    List (StockObservation × Option ℚ × Option ℚ × Option ℚ) :=
  (rankedPanel panel).map (fun r =>
    (r.obs, r.ranking_ebit_ev, r.ranking_roic, r.ranking_final))

/-- The same rank columns computed directly from a list of surviving observations. -/
def ranksOfObs (obss : List StockObservation) :
    List (StockObservation × Option ℚ × Option ℚ × Option ℚ) :=
  obss.map (fun o => (o, rank_ebit_of obss o, rank_roic_of obss o, ranking_final_of obss o))

/-- Percentage change of a price series in frame order: `Series.pct_change()`; the
first entry is missing. -/
def pctAux : ℚ → List ℚ → List (Option ℚ)
  | _, [] => []
  | prev, p :: rest => some (p / prev - 1) :: pctAux p rest

/-- Line 60 before `dropna`: `ibov_data["fechamento"].pct_change()`. -/
def pctChangeList : List ℚ → List (Option ℚ)
  | [] => []
  | p :: rest => none :: pctAux p rest

/-- Running products of a series, starting from accumulator `acc`. -/
def cumprodList (acc : ℚ) : List ℚ → List ℚ
  | [] => []
  | x :: rest => (acc * x) :: cumprodList (acc * x) rest

/-- Lines 61 and 64: `(1 + r).cumprod() - 1`, the cumulative compounded return
series of a fully defined period-return series. -/
def compound (rs : List ℚ) : List ℚ :=
  (cumprodList 1 (rs.map (fun r => 1 + r))).map (fun x => x - 1)

/-- Total compounded return: the last entry of `compound` (0 for an empty series). -/
def compoundTotal (rs : List ℚ) : ℚ :=
  (compound rs).getLastD 0

/-- Line 61: the benchmark cumulative return series
`(1 + ibov["fechamento"].pct_change().dropna()).cumprod() - 1`.  Only the
`fechamento` column of the benchmark file is read; its dates are ignored. -/
def retorno_acum_ibov (ibov : List (Nat × ℚ)) : List ℚ :=
  compound ((pctChangeList (ibov.map Prod.snd)).filterMap id)

/-- Pandas `Series.cumprod()` with the default `skipna=True`: a missing entry stays
missing but the running product continues across it. -/
def cumprodSkipna (acc : ℚ) : List (Option ℚ) → List (Option ℚ)
  | [] => []
  | none :: rest => none :: cumprodSkipna acc rest
  | some x :: rest => some (acc * x) :: cumprodSkipna (acc * x) rest

/-- Pandas mean with the default `skipna=True`: the arithmetic mean of the defined
entries, missing when there is none. -/
def meanSkipna (vals : List (Option ℚ)) : Option ℚ :=
  let defined := vals.filterMap id
  if defined.length = 0 then none else some (defined.sum / (defined.length : ℚ))

/-- Insert a key into a sorted duplicate-free key list, keeping it sorted and
duplicate-free. -/
def insertKey (d : Nat) : List Nat → List Nat
  | [] => [d]
  | e :: rest =>
    if d = e then e :: rest
    else if d < e then d :: e :: rest
    else e :: insertKey d rest

/-- Sorted distinct group keys, as produced by `groupby` (default `sort=True`). -/
def sortedKeys (l : List Nat) : List Nat :=
  l.foldr insertKey []

/-- Line 63: `dados_empresas.groupby("data")["retorno_mensal"].mean()`, one
(date, skipna-mean) entry per period key, keys sorted ascending. -/
def portfolioMeans (rows : List FinalRow) : List (Nat × Option ℚ) :=
  (sortedKeys (rows.map (fun r => r.obs.data))).map (fun d =>
    (d, meanSkipna ((rows.filter (fun r => r.obs.data == d)).map (fun r => r.retorno_mensal))))

/-- Line 64 on a nullable mean series: `(m + 1).cumprod() - 1` with pandas
skipna semantics. -/
def cumMF (ms : List (Option ℚ)) : List (Option ℚ) :=
  (cumprodSkipna 1 (ms.map (fun m => m.map (fun x => x + 1)))).map
    (fun c => c.map (fun x => x - 1))

/-- The frame `rentabilidades_carteiras` after line 64: columns `data`,
`retorno_mensal` (the period mean) and `magic_formula` (its compounded series). -/
def mfTable (rows : List FinalRow) : List (Nat × Option ℚ × Option ℚ) :=
  List.zipWith (fun p c => (p.1, p.2, c))
    (portfolioMeans rows) (cumMF ((portfolioMeans rows).map (fun p => p.2)))

/-- Line 65: `shift(1).dropna()` — every row takes the previous row's column
values (the first row becomes missing), then rows with any missing column are
dropped. -/
def shiftDropTable (t : List (Nat × Option ℚ × Option ℚ)) : List (Nat × ℚ × ℚ) :=
  (List.zipWith (fun cur prev => (cur.1, prev)) t
      (((none, none) : Option ℚ × Option ℚ) :: t.map (fun r => (r.2.1, r.2.2)))).filterMap
    (fun r =>
      match r.2.1, r.2.2 with
      | some a, some b => some (r.1, a, b)
      | _, _ => none)

/-- Error raised at line 66: assigning `retorno_acum_ibov.values` to a column of a
frame of a different length raises (pandas `ValueError`; the spec's
`AlignmentMismatchError`). -/
inductive ProcessError where
  | alignmentMismatch
deriving DecidableEq

/-- Lines 59-67: the benchmark series is compounded, the selected panel's period
means are compounded and shifted, and the benchmark column is attached positionally
(`.values` discards the benchmark index); the result keeps columns `data`,
`magic_formula`, `ibovespa`.  A length mismatch at the column assignment raises. -/
def process_ibov_data (ibov : List (Nat × ℚ)) (selected : List FinalRow) :
    Except ProcessError (List (Nat × ℚ × ℚ)) :=
  let acum := retorno_acum_ibov ibov
  let shifted := shiftDropTable (mfTable selected)
  if shifted.length = acum.length then
    Except.ok ((shifted.zip acum).map (fun p => (p.1.1, p.1.2.2, p.2)))
  else
    Except.error ProcessError.alignmentMismatch

/-- Two same-ticker rows arriving in reverse date order. -/
def panelUnsorted : List StockObservation :=
  [⟨"A", 2, 200, 2000000, none, none⟩, ⟨"A", 1, 100, 2000000, none, none⟩]

/-- Two same-ticker rows arriving in date order. -/
def panelSorted : List StockObservation :=
  [⟨"A", 1, 100, 2000000, some 1, some 1⟩, ⟨"A", 2, 200, 2000000, some 1, some 1⟩]

/-- A liquid single-observation ticker with both factor values present. -/
def panelSingleton : List StockObservation :=
  [⟨"A", 1, 100, 2000000, some 10, some 10⟩]

/-- One period with `ebit_ev` values 10, 10, 20 across three liquid tickers. -/
def panelTied : List StockObservation :=
  [⟨"A", 1, 100, 2000000, some 10, some 1⟩,
   ⟨"B", 1, 100, 2000000, some 10, some 1⟩,
   ⟨"C", 1, 100, 2000000, some 20, some 1⟩]

/-- The same period with an extra row at the liquidity threshold (not above it),
carrying extreme factor values. -/
def panelTiedPlus : List StockObservation :=
  panelTied ++ [⟨"D", 1, 100, 1000000, some 99, some 99⟩]

/-- Eleven liquid tickers in one period, all tied on both factors. -/
def panelEleven : List StockObservation :=
  [⟨"T0", 1, 100, 2000000, some 5, some 7⟩,
   ⟨"T1", 1, 100, 2000000, some 5, some 7⟩,
   ⟨"T2", 1, 100, 2000000, some 5, some 7⟩,
   ⟨"T3", 1, 100, 2000000, some 5, some 7⟩,
   ⟨"T4", 1, 100, 2000000, some 5, some 7⟩,
   ⟨"T5", 1, 100, 2000000, some 5, some 7⟩,
   ⟨"T6", 1, 100, 2000000, some 5, some 7⟩,
   ⟨"T7", 1, 100, 2000000, some 5, some 7⟩,
   ⟨"T8", 1, 100, 2000000, some 5, some 7⟩,
   ⟨"T9", 1, 100, 2000000, some 5, some 7⟩,
   ⟨"TX", 1, 100, 2000000, some 5, some 7⟩]

/-- A minimal observation carrying only a period key, for aggregator-level rows. -/
def obsAt (d : Nat) : StockObservation :=
  ⟨"X", d, 1, 2000000, none, none⟩

/-- Selected rows over four periods whose period-2 mean is missing. -/
def selMissingT2 : List FinalRow :=
  [⟨obsAt 1, some 1, some 1, some 1, some 1⟩,
   ⟨obsAt 2, none, some 1, some 1, some 1⟩,
   ⟨obsAt 3, some 3, some 1, some 1, some 1⟩,
   ⟨obsAt 4, some 4, some 1, some 1, some 1⟩]

/-- A three-price benchmark series whose period keys are disjoint from the
portfolio's. -/
def ibovDemo : List (Nat × ℚ) := [(100, 1), (101, 2), (102, 8)]

/-- A concrete two-row `rentabilidades_carteiras` table with all columns defined. -/
def tableDemo : List (Nat × Option ℚ × Option ℚ) :=
  [(1, some 1, some 1), (2, some 3, some 7)]

theorem attachForward_map_fst (l : List StockObservation) :
    (attachForward l).map Prod.fst = l := by
  induction l with
  | nil => rfl
  | cons r rest ih => simp [attachForward, ih]

theorem mem_fst_of_mem_attachForward {l : List StockObservation}
    {p : StockObservation × Option ℚ} (h : p ∈ attachForward l) : p.1 ∈ l := by
  have : p.1 ∈ (attachForward l).map Prod.fst := List.mem_map.mpr ⟨p, h, rfl⟩
  rwa [attachForward_map_fst] at this

/-- C4: in a period with factor values 10, 10, 20 ranked with `ascending=False`
(larger is better), the claimed ranks 1.5, 1.5, 3 are wrong: the code gives the
tied 10s rank 2.5 each and gives 20 rank 1. -/
theorem C4_counterexample :
    (rankedPanel panelTied).map (fun r => r.ranking_ebit_ev)
      = [some (5/2), some (5/2), some 1]
    ∧ ((5 : ℚ)/2 ≠ 3/2 ∧ (1 : ℚ) ≠ 3) := by
  constructor
  · norm_num [rankedPanel, liquidPairs, attachForward, nextSameTicker, rank_ebit_of,
      rank_roic_of, sum_rank_of, ranking_final_of, fracRank, optAdd,
      LIQUIDITY_THRESHOLD, panelTied, List.filter, List.find?, List.filterMap]
  · constructor <;> norm_num

/-- C4 (amended): under the descending-is-better fractional ranking of the code
(`rank(ascending=False)`, average ties), the factor values 10, 10, 20 receive
ranks 2.5, 2.5 and 1: the two tied values share the average of positions 2 and 3
and the value 20 is best with rank 1.  (The ranks 1.5, 1.5, 3 claimed by the spec
are the ascending ranks.) -/
theorem C4_amended :
    fracRank false [10, 10, 20] 10 = 5/2 ∧ fracRank false [10, 10, 20] 20 = 1
    ∧ fracRank true [10, 10, 20] 10 = 3/2 ∧ fracRank true [10, 10, 20] 20 = 3 := by
  refine ⟨?_, ?_, ?_, ?_⟩ <;> norm_num [fracRank, List.filter]

/-- C9: selection keeps every row with `ranking_final <= 10`, and fractional
ranking averages ties, so a period can select more than `PORTFOLIO_SIZE` tickers:
with eleven tickers tied on both factors every final rank is 6 and all eleven rows
are selected. -/
theorem C9_tie_overflow :
    (selectedPanel panelEleven).length = 11 ∧ PORTFOLIO_SIZE < (11 : ℚ) := by
  constructor
  · norm_num [selectedPanel, rankedPanel, liquidPairs, attachForward, nextSameTicker,
      rank_ebit_of, rank_roic_of, sum_rank_of, ranking_final_of, fracRank, optAdd,
      LIQUIDITY_THRESHOLD, PORTFOLIO_SIZE, panelEleven, List.filter, List.find?,
      List.filterMap]
  · norm_num [PORTFOLIO_SIZE]

/-- C3: false as stated.  A ticker with exactly one observation has an undefined
forward return, yet its row still appears in the selected panel: the selection of
line 53 tests only `ranking_final <= 10` and never looks at `retorno_mensal`, so a
liquid singleton with good factor values is selected. -/
theorem C3_counterexample :
    (panelSingleton.filter (fun r => r.ticker == "A")).length = 1
    ∧ (selectedPanel panelSingleton).map (fun r => (r.obs.ticker, r.retorno_mensal))
        = [("A", none)] := by
  constructor
  · decide
  · norm_num [selectedPanel, rankedPanel, liquidPairs, attachForward, nextSameTicker,
      rank_ebit_of, rank_roic_of, sum_rank_of, ranking_final_of, fracRank, optAdd,
      LIQUIDITY_THRESHOLD, PORTFOLIO_SIZE, panelSingleton, List.filter, List.find?,
      List.filterMap]

/-- C3 (amended): for a ticker with exactly one observation in the panel the
attached forward return is always missing; such a row can nevertheless be selected
(see the counterexample), since selection never inspects the forward return. -/
theorem C3_amended (panel : List StockObservation) (t : String)
    (h : (panel.filter (fun r => r.ticker == t)).length = 1) :
    ∀ p ∈ attachForward panel, p.1.ticker = t → p.2 = none := by
  induction panel with
  | nil => intro p hp; simp [attachForward] at hp
  | cons r rest ih =>
    intro p hp ht
    simp only [attachForward, List.mem_cons] at hp
    by_cases hrt : r.ticker = t
    · have hlen0 : (rest.filter (fun s => s.ticker == t)).length = 0 := by
        have h2 := h
        rw [List.filter_cons] at h2
        have hc : ((fun s : StockObservation => s.ticker == t) r) = true := by simp [hrt]
        rw [if_pos hc] at h2
        simp only [List.length_cons] at h2
        omega
      have hnil : rest.filter (fun s => s.ticker == t) = [] :=
        List.length_eq_zero.mp hlen0
      have hnone : ∀ s ∈ rest, ¬ s.ticker = t := by
        intro s hs hst
        have : s ∈ rest.filter (fun x => x.ticker == t) :=
          List.mem_filter.mpr ⟨hs, by simp [hst]⟩
        simp [hnil] at this
      rcases hp with hp1 | hp2
      · have hfind : nextSameTicker r.ticker rest = none := by
          unfold nextSameTicker
          rw [List.find?_eq_none]
          intro s hs
          simpa [hrt] using hnone s hs
        rw [hp1]
        simp [hfind]
      · exact absurd ht (hnone _ (mem_fst_of_mem_attachForward hp2))
    · rcases hp with hp1 | hp2
      · exfalso
        rw [hp1] at ht
        simp at ht
        exact hrt ht
      · have hh : (rest.filter (fun s => s.ticker == t)).length = 1 := by
          have h2 := h
          rw [List.filter_cons] at h2
          rwa [if_neg (by simp [hrt])] at h2
        exact ih hh p hp2 ht

theorem C3_amended_witness :
    (panelSingleton.filter (fun r => r.ticker == "A")).length = 1
    ∧ ((⟨"A", 1, 100, 2000000, some 10, some 10⟩ : StockObservation),
        (none : Option ℚ)).2 = none := by
  refine ⟨by decide, ?_⟩
  exact C3_amended panelSingleton "A" (by decide)
    (⟨"A", 1, 100, 2000000, some 10, some 10⟩, none)
    (by simp [panelSingleton, attachForward, nextSameTicker, List.find?]) rfl

theorem find?_eq_head_filter {α : Type} (p : α → Bool) (l : List α) :
    l.find? p = (l.filter p).head? := by
  induction l with
  | nil => rfl
  | cons a t ih =>
    rw [List.find?_cons, List.filter_cons]
    cases hpa : p a with
    | false => exact ih
    | true => rfl

theorem foldl_minByData_const (l : List StockObservation) (b : StockObservation)
    (h : ∀ s ∈ l, ¬ s.data < b.data) :
    l.foldl minByData (some b) = some b := by
  induction l with
  | nil => rfl
  | cons a t ih =>
    have ha : minByData (some b) a = some b := by
      simp [minByData, h a (List.mem_cons_self a t)]
    rw [List.foldl_cons, ha]
    exact ih (fun s hs => h s (List.mem_cons_of_mem a hs))

theorem foldl_minByData_sorted (g : List StockObservation)
    (h : List.Pairwise (fun a b => a.data < b.data) g) :
    g.foldl minByData none = g.head? := by
  cases g with
  | nil => rfl
  | cons b t =>
    rw [List.pairwise_cons] at h
    rw [List.foldl_cons]
    have : minByData none b = some b := rfl
    rw [this]
    rw [foldl_minByData_const t b (fun s hs => Nat.lt_asymm (h.1 s hs))]
    rfl

theorem specNext_cons_head (r : StockObservation) (t : List StockObservation)
    (hR : ∀ s ∈ t, r.ticker = s.ticker → r.data < s.data)
    (hPt : List.Pairwise (fun a b : StockObservation => a.ticker = b.ticker → a.data < b.data) t) :
    specNext (r :: t) r = t.find? (fun s => s.ticker == r.ticker) := by
  unfold specNext
  rw [List.filter_cons, if_neg (by simp)]
  rw [List.filter_congr (q := fun s => s.ticker == r.ticker) ?hpq]
  case hpq =>
    intro c hc
    by_cases hct : c.ticker = r.ticker
    · simp [hct, hR c hc hct.symm]
    · simp [hct]
  rw [find?_eq_head_filter]
  apply foldl_minByData_sorted
  refine List.Pairwise.imp_of_mem ?_ (hPt.filter (fun s => s.ticker == r.ticker))
  intro a b ha hb hab
  have ha2 : a.ticker = r.ticker := by simpa using (List.mem_filter.mp ha).2
  have hb2 : b.ticker = r.ticker := by simpa using (List.mem_filter.mp hb).2
  exact hab (ha2.trans hb2.symm)

theorem specNext_cons_skip (r s : StockObservation) (t : List StockObservation)
    (hc : (r.ticker == s.ticker && decide (s.data < r.data)) = false) :
    specNext (r :: t) s = specNext t s := by
  unfold specNext
  rw [List.filter_cons, if_neg (by simp [hc])]

/-- C1: false as stated.  `compute_forward_returns` does not sort ticker groups by
date: `groupby.pct_change` and `groupby.shift(-1)` both operate in frame order, so
when a ticker's rows arrive out of date order the attached value is the change to
the next arriving row, not to the next period.  On a two-row panel arriving as
(date 2, price 200), (date 1, price 100) the code attaches -1/2 to the date-2 row
and nothing to the date-1 row, while the date-sorted spec computation attaches
nothing to the date-2 row and +1 to the date-1 row. -/
theorem C1_counterexample :
    (attachForward panelUnsorted).map (fun p => p.2) = [some (-(1/2)), none]
    ∧ (specForwardReturns panelUnsorted).map (fun p => p.2) = [none, some 1]
    ∧ attachForward panelUnsorted ≠ specForwardReturns panelUnsorted := by
  have h1 : (attachForward panelUnsorted).map (fun p => p.2) = [some (-(1/2)), none] := by
    norm_num [attachForward, nextSameTicker, panelUnsorted, List.find?]
  have h2 : (specForwardReturns panelUnsorted).map (fun p => p.2) = [none, some 1] := by
    norm_num [specForwardReturns, specNext, minByData, panelUnsorted, List.filter,
      List.foldl]
  refine ⟨h1, h2, ?_⟩
  intro heq
  rw [heq, h2] at h1
  simp at h1

/-- C1 (amended): provided each ticker's rows arrive in strictly increasing date
order, `compute_forward_returns` computes exactly the spec's value: each row gets
the percentage price change to the ticker's next period, missing for the final
period of each ticker and for any ticker with fewer than 2 periods.  (As stated the
claim is false: the code never sorts by date — see the counterexample.) -/
theorem C1_amended (panel : List StockObservation)
    (h : List.Pairwise (fun a b : StockObservation => a.ticker = b.ticker → a.data < b.data)
      panel) :
    attachForward panel = specForwardReturns panel := by
  induction panel with
  | nil => rfl
  | cons r t ih =>
    rw [List.pairwise_cons] at h
    obtain ⟨hR, hPt⟩ := h
    simp only [attachForward, specForwardReturns, List.map_cons]
    congr 1
    · rw [specNext_cons_head r t hR hPt]
      rfl
    · rw [ih hPt]
      unfold specForwardReturns
      apply List.map_congr_left
      intro s hs
      rw [specNext_cons_skip r s t ?hcond]
      case hcond =>
        by_cases hts : r.ticker = s.ticker
        · simp [hts, Nat.lt_asymm (hR s hs hts)]
        · simp [hts]

theorem C1_amended_witness :
    List.Pairwise (fun a b : StockObservation => a.ticker = b.ticker → a.data < b.data)
      panelSorted
    ∧ attachForward panelSorted = specForwardReturns panelSorted :=
  ⟨by decide, C1_amended panelSorted (by decide)⟩

theorem map_fst_filter_fst {α β : Type} (q : α → Bool) (l : List (α × β)) :
    (l.filter (fun p => q p.1)).map Prod.fst = (l.map Prod.fst).filter q := by
  induction l with
  | nil => rfl
  | cons a t ih =>
    simp only [List.filter_cons, List.map_cons]
    cases hq : q a.1 with
    | false => simpa [hq] using ih
    | true => simp [hq, ih]

theorem liquidPairs_map_fst (panel : List StockObservation) :
    (liquidPairs panel).map Prod.fst
      = panel.filter (fun r => decide (LIQUIDITY_THRESHOLD < r.volume_negociado)) := by
  have h := map_fst_filter_fst
    (fun o : StockObservation => decide (LIQUIDITY_THRESHOLD < o.volume_negociado))
    (attachForward panel)
  rw [attachForward_map_fst] at h
  exact h

theorem ranksView_eq (panel : List StockObservation) :
    ranksView panel
      = ranksOfObs
          (panel.filter (fun r => decide (LIQUIDITY_THRESHOLD < r.volume_negociado))) := by
  unfold ranksView ranksOfObs rankedPanel
  rw [← liquidPairs_map_fst, List.map_map, List.map_map]
  rfl

/-- C5: the liquidity filter of line 45 runs before the rank computations of
lines 47-51, so two panels whose liquid rows (volume strictly above the threshold)
coincide produce identical `ranking_ebit_ev`, `ranking_roic` and `ranking_final`
columns for every surviving row: rows at or below the threshold never influence
ranks or rank denominators.  (Panels differing only by the presence of
sub-threshold rows have equal liquid-row lists, so this covers the claim.) -/
theorem C5_liquidity_before_rank (p1 p2 : List StockObservation)
    (h : p1.filter (fun r => decide (LIQUIDITY_THRESHOLD < r.volume_negociado))
       = p2.filter (fun r => decide (LIQUIDITY_THRESHOLD < r.volume_negociado))) :
    ranksView p1 = ranksView p2 := by
  rw [ranksView_eq, ranksView_eq, h]

theorem C5_witness :
    panelTied.filter (fun r => decide (LIQUIDITY_THRESHOLD < r.volume_negociado))
      = panelTiedPlus.filter (fun r => decide (LIQUIDITY_THRESHOLD < r.volume_negociado))
    ∧ ranksView panelTied = ranksView panelTiedPlus := by
  have h : panelTied.filter (fun r => decide (LIQUIDITY_THRESHOLD < r.volume_negociado))
      = panelTiedPlus.filter (fun r => decide (LIQUIDITY_THRESHOLD < r.volume_negociado)) := by
    norm_num [panelTied, panelTiedPlus, LIQUIDITY_THRESHOLD, List.filter]
  exact ⟨h, C5_liquidity_before_rank panelTied panelTiedPlus h⟩

theorem cumprodList_getLast (acc x : ℚ) (xs : List ℚ) :
    (cumprodList acc (x :: xs)).getLast? = some (acc * (x :: xs).prod) := by
  induction xs generalizing acc x with
  | nil => simp [cumprodList]
  | cons y t ih =>
    have e1 : cumprodList acc (x :: y :: t)
        = (acc * x) :: cumprodList (acc * x) (y :: t) := rfl
    rw [e1]
    have e2 : cumprodList (acc * x) (y :: t)
        = (acc * x * y) :: cumprodList (acc * x * y) t := rfl
    rw [e2, List.getLast?_cons_cons, ← e2, ih (acc * x) y]
    simp [List.prod_cons, mul_assoc]

theorem compound_getLast (r : ℚ) (rs : List ℚ) :
    (compound (r :: rs)).getLast? = some (((r :: rs).map (fun x => 1 + x)).prod - 1) := by
  unfold compound
  rw [List.getLast?_map, List.map_cons, cumprodList_getLast]
  simp

theorem compoundTotal_eq (rs : List ℚ) :
    compoundTotal rs = (rs.map (fun x => 1 + x)).prod - 1 := by
  cases rs with
  | nil => simp [compoundTotal, compound, cumprodList]
  | cons r t =>
    unfold compoundTotal
    rw [List.getLastD_eq_getLast?, compound_getLast]
    rfl

/-- C7: `compound` implements `(1 + r).cumprod() - 1`: for a non-empty series the
first cumulative value is the first period return itself, the last cumulative
value is the product of all `(1 + r_i)` minus 1, and compounding is associative:
compounding a concatenated series multiplies the two compounded growth factors,
so any grouping of the multiplications yields the same cumulative result. -/
theorem C7_compound (r : ℚ) (rs xs ys : List ℚ) :
    (compound (r :: rs)).head? = some r
    ∧ (compound (r :: rs)).getLast? = some (((r :: rs).map (fun x => 1 + x)).prod - 1)
    ∧ compoundTotal (xs ++ ys) + 1 = (compoundTotal xs + 1) * (compoundTotal ys + 1) := by
  refine ⟨?_, compound_getLast r rs, ?_⟩
  · show ((cumprodList 1 ((r :: rs).map (fun x => 1 + x))).map (fun x => x - 1)).head?
        = some r
    rw [List.map_cons]
    have e1 : cumprodList 1 ((1 + r) :: rs.map (fun x => 1 + x))
        = (1 * (1 + r)) :: cumprodList (1 * (1 + r)) (rs.map (fun x => 1 + x)) := rfl
    rw [e1, List.map_cons, List.head?_cons]
    congr 1
    ring
  · rw [compoundTotal_eq, compoundTotal_eq, compoundTotal_eq, List.map_append,
      List.prod_append]
    ring

theorem mem_insertKey (d a : Nat) (l : List Nat) :
    d ∈ insertKey a l ↔ d = a ∨ d ∈ l := by
  induction l with
  | nil => simp [insertKey]
  | cons e rest ih =>
    by_cases hae : a = e
    · subst hae
      rw [show insertKey a (a :: rest) = a :: rest by simp [insertKey]]
      constructor
      · exact fun h => Or.inr h
      · rintro (rfl | h)
        · exact List.mem_cons_self d rest
        · exact h
    · by_cases hlt : a < e
      · rw [show insertKey a (e :: rest) = a :: e :: rest by simp [insertKey, hae, hlt]]
        simp [List.mem_cons]
      · rw [show insertKey a (e :: rest) = e :: insertKey a rest by
          simp [insertKey, hae, hlt]]
        simp [List.mem_cons, ih]
        tauto

theorem mem_sortedKeys (d : Nat) (l : List Nat) : d ∈ sortedKeys l ↔ d ∈ l := by
  induction l with
  | nil => simp [sortedKeys]
  | cons a t ih =>
    rw [show sortedKeys (a :: t) = insertKey a (sortedKeys t) from rfl, mem_insertKey]
    simp [ih, List.mem_cons]

theorem lookup_map_keys {β : Type} (f : Nat → β) (keys : List Nat) (d : Nat)
    (hd : d ∈ keys) :
    List.lookup d (keys.map (fun k => (k, f k))) = some (f d) := by
  induction keys with
  | nil => simp at hd
  | cons k rest ih =>
    by_cases hdk : d = k
    · subst hdk
      simp [List.lookup]
    · have hd2 : d ∈ rest := by
        rcases List.mem_cons.mp hd with h | h
        · exact absurd h hdk
        · exact h
      have hbeq : (d == k) = false := by simp [hdk]
      simp [List.lookup, hbeq, ih hd2]

theorem lookup_map_keys_not {β : Type} (f : Nat → β) (keys : List Nat) (d : Nat)
    (hd : d ∉ keys) :
    List.lookup d (keys.map (fun k => (k, f k))) = none := by
  induction keys with
  | nil => rfl
  | cons k rest ih =>
    have hdk : ¬ d = k := fun h => hd (h ▸ List.mem_cons_self k rest)
    have hd2 : d ∉ rest := fun h => hd (List.mem_cons_of_mem _ h)
    have hbeq : (d == k) = false := by simp [hdk]
    simp [List.lookup, hbeq, ih hd2]

theorem filterMap_id_nil {α : Type} (l : List (Option α)) (h : ∀ x ∈ l, x = none) :
    l.filterMap id = [] := by
  induction l with
  | nil => rfl
  | cons a t ih =>
    have ha := h a (List.mem_cons_self a t)
    subst ha
    exact ih (fun x hx => h x (List.mem_cons_of_mem _ hx))

/-- C8: the portfolio period return of line 63 is the skipna mean of
`retorno_mensal` over the period's selected rows: present periods map to the
arithmetic mean of the defined forward returns; a period whose selected rows all
have missing forward returns yields a missing mean (`some none`, never zero); a
period with no selected rows has no entry at all in the grouped series (so it too
can never contribute a zero). -/
theorem C8_portfolio_period_return (rows : List FinalRow) (d : Nat) :
    (d ∈ rows.map (fun r => r.obs.data) →
      List.lookup d (portfolioMeans rows)
          = some (meanSkipna ((rows.filter (fun r => r.obs.data == d)).map
              (fun r => r.retorno_mensal)))
      ∧ ((∀ r ∈ rows, r.obs.data = d → r.retorno_mensal = none) →
          List.lookup d (portfolioMeans rows) = some none))
    ∧ (d ∉ rows.map (fun r => r.obs.data) →
        List.lookup d (portfolioMeans rows) = none) := by
  constructor
  · intro hd
    have hkey : d ∈ sortedKeys (rows.map (fun r => r.obs.data)) :=
      (mem_sortedKeys _ _).mpr hd
    have h1 := lookup_map_keys
      (fun k => meanSkipna ((rows.filter (fun r => r.obs.data == k)).map
        (fun r => r.retorno_mensal)))
      (sortedKeys (rows.map (fun r => r.obs.data))) d hkey
    have h2 : List.lookup d (portfolioMeans rows)
        = some (meanSkipna ((rows.filter (fun r => r.obs.data == d)).map
            (fun r => r.retorno_mensal))) := h1
    refine ⟨h2, fun hall => ?_⟩
    rw [h2]
    have hnone : ∀ x ∈ (rows.filter (fun r => r.obs.data == d)).map
        (fun r => r.retorno_mensal), x = none := by
      intro x hx
      rcases List.mem_map.mp hx with ⟨r, hr, hxe⟩
      have hmf := List.mem_filter.mp hr
      have hdd : r.obs.data = d := by simpa using hmf.2
      rw [← hxe]
      exact hall r hmf.1 hdd
    have hempty := filterMap_id_nil _ hnone
    simp [meanSkipna, hempty]
  · intro hd
    have hkey : d ∉ sortedKeys (rows.map (fun r => r.obs.data)) :=
      fun h => hd ((mem_sortedKeys _ _).mp h)
    exact lookup_map_keys_not
      (fun k => meanSkipna ((rows.filter (fun r => r.obs.data == k)).map
        (fun r => r.retorno_mensal)))
      (sortedKeys (rows.map (fun r => r.obs.data))) d hkey

theorem C8_portfolio_period_return_witness :
    (2 ∈ selMissingT2.map (fun r => r.obs.data))
    ∧ List.lookup 2 (portfolioMeans selMissingT2) = some none :=
  ⟨by decide, ((C8_portfolio_period_return selMissingT2 2).1 (by decide)).2 (by decide)⟩

theorem optAdd_none_right (x : Option ℚ) : optAdd x none = none := by
  cases x <;> rfl

theorem rankedPanel_fields {panel : List StockObservation} {r : FinalRow}
    (hr : r ∈ rankedPanel panel) :
    r.ranking_ebit_ev = rank_ebit_of ((liquidPairs panel).map Prod.fst) r.obs
    ∧ r.ranking_roic = rank_roic_of ((liquidPairs panel).map Prod.fst) r.obs
    ∧ r.ranking_final = ranking_final_of ((liquidPairs panel).map Prod.fst) r.obs := by
  unfold rankedPanel at hr
  rcases List.mem_map.mp hr with ⟨p, hp, hpe⟩
  subst hpe
  exact ⟨rfl, rfl, rfl⟩

theorem rankedPanel_group_sums (panel : List StockObservation) (dd : Nat) :
    ((rankedPanel panel).filter (fun s => s.obs.data == dd)).filterMap
        (fun s => optAdd s.ranking_ebit_ev s.ranking_roic)
      = (((liquidPairs panel).map Prod.fst).filter (fun o => o.data == dd)).filterMap
          (sum_rank_of ((liquidPairs panel).map Prod.fst)) := by
  unfold rankedPanel
  rw [List.filter_map, List.filterMap_map]
  have h := map_fst_filter_fst (fun o : StockObservation => o.data == dd) (liquidPairs panel)
  rw [← h, List.filterMap_map]
  rfl

/-- C6: in each period, `ranking_final` is the ascending fractional rank (average
ties) of `ranking_ebit_ev + ranking_roic` over the period's rows with defined
sums, and the selected panel consists exactly of the ranked rows whose final rank
is defined and at most `PORTFOLIO_SIZE` (10); a row with a missing factor value
gets a missing final rank and is excluded from selection. -/
theorem C6_combine_and_select (panel : List StockObservation) (r : FinalRow) :
    (r ∈ selectedPanel panel ↔
      r ∈ rankedPanel panel ∧ ∃ q, r.ranking_final = some q ∧ q ≤ PORTFOLIO_SIZE)
    ∧ (r ∈ rankedPanel panel →
        r.ranking_final
          = (optAdd r.ranking_ebit_ev r.ranking_roic).map
              (fracRank true
                (((rankedPanel panel).filter (fun s => s.obs.data == r.obs.data)).filterMap
                  (fun s => optAdd s.ranking_ebit_ev s.ranking_roic))))
    ∧ (r ∈ rankedPanel panel → r.obs.ebit_ev = none ∨ r.obs.roic = none →
        r.ranking_final = none ∧ r ∉ selectedPanel panel) := by
  have hiff : r ∈ selectedPanel panel ↔
      r ∈ rankedPanel panel ∧ ∃ q, r.ranking_final = some q ∧ q ≤ PORTFOLIO_SIZE := by
    unfold selectedPanel
    rw [List.mem_filter]
    cases hrf : r.ranking_final with
    | none => simp [hrf]
    | some q => simp [hrf]
  have hform : r ∈ rankedPanel panel →
      r.ranking_final
        = (optAdd r.ranking_ebit_ev r.ranking_roic).map
            (fracRank true
              (((rankedPanel panel).filter (fun s => s.obs.data == r.obs.data)).filterMap
                (fun s => optAdd s.ranking_ebit_ev s.ranking_roic))) := by
    intro hr
    obtain ⟨he, hroic, hfin⟩ := rankedPanel_fields hr
    rw [hfin, rankedPanel_group_sums panel r.obs.data, he, hroic]
    rfl
  refine ⟨hiff, hform, ?_⟩
  intro hr hmiss
  obtain ⟨he, hroic, hfin⟩ := rankedPanel_fields hr
  have hsum : sum_rank_of ((liquidPairs panel).map Prod.fst) r.obs = none := by
    rcases hmiss with h | h
    · unfold sum_rank_of rank_ebit_of
      rw [h]
      rfl
    · unfold sum_rank_of rank_roic_of
      rw [h]
      exact optAdd_none_right _
  have hfin0 : r.ranking_final = none := by
    rw [hfin]
    unfold ranking_final_of
    rw [hsum]
    rfl
  refine ⟨hfin0, fun hsel => ?_⟩
  rcases (hiff.mp hsel).2 with ⟨q, hq, _⟩
  rw [hfin0] at hq
  exact Option.noConfusion hq

theorem C6_combine_and_select_witness :
    ((⟨⟨"A", 1, 100, 2000000, some 10, some 10⟩, none, some 1, some 1, some 1⟩ : FinalRow)
        ∈ rankedPanel panelSingleton)
    ∧ (⟨⟨"A", 1, 100, 2000000, some 10, some 10⟩, none, some 1, some 1, some 1⟩ : FinalRow).ranking_final
        = (optAdd (some 1) (some 1)).map
            (fracRank true
              (((rankedPanel panelSingleton).filter
                  (fun s => s.obs.data == 1)).filterMap
                (fun s => optAdd s.ranking_ebit_ev s.ranking_roic))) := by
  have hmem : (⟨⟨"A", 1, 100, 2000000, some 10, some 10⟩, none, some 1, some 1, some 1⟩ : FinalRow)
      ∈ rankedPanel panelSingleton := by
    norm_num [rankedPanel, liquidPairs, attachForward, nextSameTicker, rank_ebit_of,
      rank_roic_of, sum_rank_of, ranking_final_of, fracRank, optAdd,
      LIQUIDITY_THRESHOLD, panelSingleton, List.filter, List.find?, List.filterMap]
  exact ⟨hmem, (C6_combine_and_select panelSingleton _).2.1 hmem⟩

theorem cumprodSkipna_get_none (l : List (Option ℚ)) :
    ∀ (acc : ℚ) (i : Nat),
      ((cumprodSkipna acc l).get? i = some none ↔ l.get? i = some none) := by
  induction l with
  | nil => intro acc i; simp [cumprodSkipna]
  | cons o rest ih =>
    intro acc i
    cases o with
    | none =>
      cases i with
      | zero => simp [cumprodSkipna]
      | succ j => simpa [cumprodSkipna] using ih acc j
    | some x =>
      cases i with
      | zero => simp [cumprodSkipna]
      | succ j => simpa [cumprodSkipna] using ih (acc * x) j

theorem cumprodSkipna_length (l : List (Option ℚ)) :
    ∀ (acc : ℚ), (cumprodSkipna acc l).length = l.length := by
  induction l with
  | nil => intro acc; rfl
  | cons o rest ih =>
    intro acc
    cases o with
    | none => simp [cumprodSkipna, ih]
    | some x => simp [cumprodSkipna, ih]

theorem map_opt_get_none (f : ℚ → ℚ) (l : List (Option ℚ)) (i : Nat) :
    ((l.map (fun m => m.map f)).get? i = some none) ↔ l.get? i = some none := by
  rw [List.get?_map]
  cases h : l.get? i with
  | none => simp
  | some o => cases o <;> simp

theorem cumMF_get_none (ms : List (Option ℚ)) (i : Nat) :
    ((cumMF ms).get? i = some none) ↔ ms.get? i = some none := by
  unfold cumMF
  rw [map_opt_get_none (fun x => x - 1), cumprodSkipna_get_none,
    map_opt_get_none (fun x => x + 1)]

theorem cumMF_length (ms : List (Option ℚ)) : (cumMF ms).length = ms.length := by
  simp [cumMF, cumprodSkipna_length]

theorem shiftDrop_keeps (t : List (Nat × Option ℚ × Option ℚ)) (i d0 d1 : Nat)
    (a b : ℚ) (p q : Option ℚ)
    (h0 : t.get? i = some (d0, some a, some b))
    (h1 : t.get? (i + 1) = some (d1, p, q)) :
    (d1, a, b) ∈ shiftDropTable t := by
  unfold shiftDropTable
  apply List.mem_filterMap.mpr
  refine ⟨(d1, some a, some b), ?_, rfl⟩
  apply List.get?_mem (n := i + 1)
  rw [List.get?_zipWith', h1]
  have h2 : (((none, none) : Option ℚ × Option ℚ)
        :: t.map (fun r => (r.2.1, r.2.2))).get? (i + 1)
      = some (some a, some b) := by
    rw [List.get?_cons_succ, List.get?_map, h0]
    rfl
  rw [h2]
  rfl

/-- C10: false as stated.  Pandas `cumprod` has `skipna=True`, so a missing mean
at period 2 leaves the cumulative series missing at period 2 only — later periods
resume the running product — and `shift(1).dropna()` then drops only the first row
and the row immediately after the missing period, not the whole remainder: period
4 survives in the output table. -/
theorem C10_counterexample :
    cumMF ((portfolioMeans selMissingT2).map (fun p => p.2))
        = [some 1, none, some 7, some 39]
    ∧ shiftDropTable (mfTable selMissingT2) = [(2, 1, 1), (4, 3, 7)] := by
  constructor <;>
    norm_num [cumMF, cumprodSkipna, portfolioMeans, sortedKeys, insertKey, meanSkipna,
      selMissingT2, obsAt, mfTable, shiftDropTable, List.filter, List.filterMap,
      List.zipWith, List.foldr]

/-- C10 (amended): a missing portfolio mean at period T makes the cumulative
strategy return missing at position T only — the skipna running product leaves
every position's definedness unchanged — and the shift-by-one-and-drop step keeps
every row whose predecessor row is fully defined, so only the first row and the
rows immediately following a missing-mean period are removed, not the entire
remainder of the table. -/
theorem C10_amended (ms : List (Option ℚ)) (i : Nat)
    (t : List (Nat × Option ℚ × Option ℚ)) (d0 d1 : Nat) (a b : ℚ) (p q : Option ℚ) :
    (cumMF ms).length = ms.length
    ∧ (((cumMF ms).get? i = some none) ↔ ms.get? i = some none)
    ∧ (t.get? i = some (d0, some a, some b) → t.get? (i + 1) = some (d1, p, q) →
        (d1, a, b) ∈ shiftDropTable t) :=
  ⟨cumMF_length ms, cumMF_get_none ms i, shiftDrop_keeps t i d0 d1 a b p q⟩

theorem C10_amended_witness :
    tableDemo.get? 0 = some (1, some 1, some 1)
    ∧ tableDemo.get? 1 = some (2, some 3, some 7)
    ∧ ((2 : Nat), (1 : ℚ), (1 : ℚ)) ∈ shiftDropTable tableDemo :=
  ⟨by decide, by decide,
    (C10_amended [] 0 tableDemo 1 2 1 1 (some 3) (some 7)).2.2 (by decide) (by decide)⟩

/-- C2: false as stated.  At the join of line 66 the benchmark column is assigned
positionally from `retorno_acum_ibov.values`: only a length mismatch raises.
With benchmark period keys 100, 101, 102 and portfolio period keys 2 and 4, the
two length-2 series join without any error, so non-corresponding period sets do
not raise; the dates pair up silently by position. -/
theorem C2_counterexample :
    process_ibov_data ibovDemo selMissingT2 = Except.ok [(2, 1, 1), (4, 7, 7)]
    ∧ ibovDemo.map Prod.fst = [100, 101, 102]
    ∧ (shiftDropTable (mfTable selMissingT2)).map Prod.fst = [2, 4] := by
  refine ⟨?_, by decide, ?_⟩
  · norm_num [process_ibov_data, retorno_acum_ibov, pctChangeList, pctAux, compound,
      cumprodList, cumMF, cumprodSkipna, portfolioMeans, sortedKeys, insertKey,
      meanSkipna, selMissingT2, obsAt, ibovDemo, mfTable, shiftDropTable, List.filter,
      List.filterMap, List.zipWith, List.foldr, List.zip]
  · norm_num [cumMF, cumprodSkipna, portfolioMeans, sortedKeys, insertKey, meanSkipna,
      selMissingT2, obsAt, mfTable, shiftDropTable, List.filter, List.filterMap,
      List.zipWith, List.foldr]

/-- C2 (amended): the join step raises the alignment error exactly when the
shifted portfolio series and the benchmark cumulative series have different
lengths; when the lengths agree the result is a positional join of the two
series, preserving the portfolio's period keys and row count — nothing is
truncated or padded, but period correspondence is never checked. -/
theorem C2_amended (ibov : List (Nat × ℚ)) (selected : List FinalRow) :
    (process_ibov_data ibov selected = Except.error ProcessError.alignmentMismatch
      ↔ (shiftDropTable (mfTable selected)).length ≠ (retorno_acum_ibov ibov).length)
    ∧ (∀ out, process_ibov_data ibov selected = Except.ok out →
        out.length = (shiftDropTable (mfTable selected)).length
        ∧ out.map (fun r => r.1) = (shiftDropTable (mfTable selected)).map
            (fun r => r.1)) := by
  unfold process_ibov_data
  by_cases h : (shiftDropTable (mfTable selected)).length = (retorno_acum_ibov ibov).length
  · rw [if_pos h]
    constructor
    · constructor
      · intro he
        exact Except.noConfusion he
      · intro hne
        exact absurd h hne
    · intro out hout
      have hout2 : ((shiftDropTable (mfTable selected)).zip (retorno_acum_ibov ibov)).map
          (fun p => (p.1.1, p.1.2.2, p.2)) = out := by
        injection hout
      rw [← hout2]
      constructor
      · rw [List.length_map, List.length_zip, h, min_self, ← h]
      · rw [List.map_map]
        have e1 : ((shiftDropTable (mfTable selected)).zip (retorno_acum_ibov ibov)).map
            ((fun r : Nat × ℚ × ℚ => r.1) ∘ (fun p : (Nat × ℚ × ℚ) × ℚ => (p.1.1, p.1.2.2, p.2)))
            = (((shiftDropTable (mfTable selected)).zip (retorno_acum_ibov ibov)).map
                Prod.fst).map (fun r => r.1) := by
          rw [List.map_map]
          rfl
        rw [e1, List.map_fst_zip _ _ (le_of_eq h)]
  · rw [if_neg h]
    constructor
    · constructor
      · intro _
        exact h
      · intro _
        rfl
    · intro out hout
      exact Except.noConfusion hout

theorem C2_amended_witness :
    process_ibov_data ibovDemo selMissingT2 = Except.ok [(2, 1, 1), (4, 7, 7)]
    ∧ ([((2 : Nat), (1 : ℚ), (1 : ℚ)), (4, 7, 7)].length
        = (shiftDropTable (mfTable selMissingT2)).length) := by
  have h : process_ibov_data ibovDemo selMissingT2 = Except.ok [(2, 1, 1), (4, 7, 7)] := by
    norm_num [process_ibov_data, retorno_acum_ibov, pctChangeList, pctAux, compound,
      cumprodList, cumMF, cumprodSkipna, portfolioMeans, sortedKeys, insertKey,
      meanSkipna, selMissingT2, obsAt, ibovDemo, mfTable, shiftDropTable, List.filter,
      List.filterMap, List.zipWith, List.foldr, List.zip]
  exact ⟨h, ((C2_amended ibovDemo selMissingT2).2 [(2, 1, 1), (4, 7, 7)] h).1⟩
